import Mathlib

/-!
Verification of the Delphi-Beliefs core engine (src/server.js).

Shallow embedding conventions:
* The upstream network is an oracle `net : Req → TransportResult`.  `tthrow e`
  models a rejected promise (transport failure inside `safeFetch`/`res.text()`);
  `treply ok status text json` models a completed HTTP exchange, where `json`
  is the result of `JSON.parse(text)` (`none` = parse throws, i.e. non-JSON body).
* Machine numbers (aggregate scores, prices, timestamps) are modelled as `ℚ`
  (timestamps as `Int` milliseconds).  A JS value that is absent, not a number,
  or not finite is modelled as `Option ℚ = none`.
* JS objects used as maps are modelled as association lists in key order
  (`alookup` = property read, `upsert` = property write: replaces in place,
  keeps insertion position, appends when fresh — JS object semantics).
* Each embedded function additionally returns the list of upstream requests it
  issued, so that "does not consult the chart / does not re-probe" claims are
  statable.
-/

/-- Requests the server can issue against the upstream Delphi API.
`marketObj` models `GET /markets/:id` (present in the upstream interface,
used by no code path in src/server.js). -/
inductive Req where
  | markets (limit : Nat) (status : String)
  | evals (marketId : String) (modelIdx : String)
  | chart (marketId : String) (timeframe : String)
  | marketObj (marketId : String)
deriving DecidableEq, Repr

/-- An evaluation record: `aggregate` is `some q` exactly when the JS field is
a finite number `q` (`typeof e.aggregate === "number" && Number.isFinite`). -/
structure EvalRec where
  aggregate : Option ℚ
deriving DecidableEq, Repr

/-- A JS `price` field: a string (carrying its `Number(...)` parse, `none` = NaN),
a number (`none` = not finite), or any other value. -/
inductive JsPrice where
  | str (parsed : Option ℚ)
  | num (finite : Option ℚ)
  | other
deriving DecidableEq, Repr

/-- One chart entry `{entry_idx, price}`. -/
structure ChartEntry where
  entry_idx : Int
  price : JsPrice
deriving DecidableEq, Repr

/-- One chart data point; `entries` is `none` when the field is absent or not an array. -/
structure DataPoint where
  entries : Option (List ChartEntry)
deriving DecidableEq, Repr

/-- A `market_chart` object; `data_points` is `none` when absent/not an array. -/
structure MarketChart where
  data_points : Option (List DataPoint)
deriving DecidableEq, Repr

/-- The nested `data` wrapper shape. -/
structure DataField where
  market_chart : Option MarketChart
deriving DecidableEq, Repr

/-- One item of `GET /markets`: `market_id` is already in `String(...)` form,
`created_ts` is `none` when absent/non-numeric. -/
structure MarketItem where
  market_id : String
  market_name : Option String
  created_ts : Option ℚ
deriving DecidableEq, Repr

/-- A parsed upstream JSON body; only the fields src/server.js ever reads.
Absent fields are `none`. -/
structure UpJson where
  items : Option (List MarketItem) := none
  evals : Option (List EvalRec) := none
  market_chart : Option MarketChart := none
  data_points : Option (List DataPoint) := none
  data : Option DataField := none
deriving DecidableEq, Repr

deriving instance DecidableEq for Except

/-- Outcome of one upstream exchange as observed by `fetchText`/`fetchJson`. -/
inductive TransportResult where
  | tthrow (e : String)
  | treply (ok : Bool) (status : Int) (text : String) (json : Option UpJson)
deriving DecidableEq, Repr

/-- The network oracle: what the upstream returns for each request. -/
def Net : Type := Req → TransportResult

/-- Result shape of `fetchText`. -/
structure FetchTextRes where
  ok : Bool
  status : Int
  text : String
deriving DecidableEq, Repr

/-- Result shape of `fetchJson` / `fetchJsonWithTimeout`. -/
structure FetchJsonRes where
  ok : Bool
  status : Int
  json : Option UpJson
  text : String
deriving DecidableEq, Repr

/-- `fetchText(url)` (src/server.js:32-43): awaits the exchange and returns
`{ok, status, text}`; a transport failure rejects (modelled as `Except.error`). -/
def fetchText {α : Type} (net : α → TransportResult) (url : α) :
    Except String FetchTextRes :=
  match net url with
  | .tthrow e => .error e
  | .treply ok status text _ => .ok ⟨ok, status, text⟩

/-- `fetchJson(url)` (src/server.js:45-52): calls `fetchText` (whose rejection
propagates — only `JSON.parse` is inside the `try`), then parses; on parse
failure returns `ok=false, json=null` with the raw text kept. -/
def fetchJson {α : Type} (net : α → TransportResult) (url : α) :
    Except String FetchJsonRes :=
  match net url with
  | .tthrow e => .error e
  | .treply ok status text json =>
    match json with
    | some j => .ok ⟨ok, status, some j, text⟩
    | none => .ok ⟨false, status, none, text⟩

/-- `fetchJsonWithTimeout(url)` (src/server.js:54-78): same parse handling, but
the outer catch absorbs transport failures/aborts into
`{ok:false, status:0, json:null, text:String(e)}` — it never rejects. -/
def fetchJsonWithTimeout {α : Type} (net : α → TransportResult) (url : α) :
    FetchJsonRes :=
  match net url with
  | .tthrow e => ⟨false, 0, none, e⟩
  | .treply ok status text json =>
    match json with
    | some j => ⟨ok, status, some j, text⟩
    | none => ⟨false, status, none, text⟩

/-- First-match association-list lookup (JS object property read). -/
def alookup {α : Type} : List (String × α) → String → Option α
  | [], _ => none
  | (k, v) :: rest, key => if k = key then some v else alookup rest key

/-- JS object property write: replace in place when the key exists (keeping its
insertion position), append otherwise. -/
def upsert {α : Type} : List (String × α) → String → α → List (String × α)
  | [], k, v => [(k, v)]
  | (k₀, v₀) :: rest, k, v =>
    if k₀ = k then (k, v) :: rest else (k₀, v₀) :: upsert rest k v

/-- JS `s || d` for a possibly-absent string: the empty string is falsy. -/
def jsOrStr (v : Option String) (d : String) : String :=
  match v with
  | some s => if s = "" then d else s
  | none => d

/-- JS truthiness of a possibly-absent string (`if (confirmedWinner)`). -/
def jsTruthyStr (v : Option String) : Bool :=
  match v with
  | some s => !(s = "")
  | none => false

/-- An entry map: ordered mapping index-string → model name. -/
abbrev EntryMap : Type := List (String × String)

/-- One MARKET_CONFIG record (src/server.js:98-158). -/
structure MarketCfg where
  displayNum : Nat
  name : String
  closedDate : String
  confirmedWinner : String
  entryMap : List (String × String)
deriving DecidableEq, Repr

/-- MARKET_CONFIG["0"]. -/
def MC0 : MarketCfg :=
  { displayNum := 1
    name := "Gensyn Middleweight General Reasoning Benchmark"
    closedDate := "Dec 29, 2024"
    confirmedWinner := "Qwen/Qwen3-30B-A3B-Instruct-2507"
    entryMap := [("0", "Qwen/Qwen3-30B-A3B-Instruct-2507"),
                 ("1", "zai-org/glm-4-32b-0414"),
                 ("2", "tiiuae/falcon-h1-34b-instruct"),
                 ("3", "google/gemma-3-27b-it"),
                 ("4", "openai/gpt-oss-20b")] }

/-- MARKET_CONFIG["1"]. -/
def MC1 : MarketCfg :=
  { displayNum := 2
    name := "Gensyn Middleweight General Reasoning Benchmark (II)"
    closedDate := "Dec 29, 2024"
    confirmedWinner := "Qwen/Qwen3-30B-A3B-Instruct-2507"
    entryMap := [("0", "Qwen/Qwen3-30B-A3B-Instruct-2507"),
                 ("1", "openai/gpt-oss-20b"),
                 ("2", "google/gemma-3-27b-it"),
                 ("3", "zai-org/glm-4-32b-0414"),
                 ("4", "tiiuae/falcon-h1-34b-instruct")] }

/-- MARKET_CONFIG["3"]. -/
def MC3 : MarketCfg :=
  { displayNum := 3
    name := "Gensyn Lightweight General Reasoning Benchmark"
    closedDate := "Jan 30, 2025"
    confirmedWinner := "Qwen/Qwen3-8B"
    entryMap := [("0", "Qwen/Qwen3-8B"),
                 ("1", "mistralai/ministral-3-8b-instruct-2512"),
                 ("2", "ibm-granite/granite-4.0-h-tiny"),
                 ("3", "allenai/olmo-3-7b-instruct"),
                 ("4", "meta-llama/llama-3.1-8b-instruct")] }

/-- MARKET_CONFIG["4"]. -/
def MC4 : MarketCfg :=
  { displayNum := 4
    name := "Gensyn Commercial-Fast Reasoning Benchmark"
    closedDate := "Feb 27, 2025"
    confirmedWinner := "grok-4.1-fast-reasoning"
    entryMap := [("0", "claude-haiku-4-5"),
                 ("1", "gemini-3-flash-preview"),
                 ("2", "gpt-5-mini"),
                 ("3", "grok-4.1-fast-reasoning")] }

/-- MARKET_CONFIG as a partial map over market-id strings. -/
def MARKET_CONFIG (id : String) : Option MarketCfg :=
  if id = "0" then some MC0
  else if id = "1" then some MC1
  else if id = "3" then some MC3
  else if id = "4" then some MC4
  else none

/-- MARKET_ORDER (src/server.js:161). -/
def MARKET_ORDER : List String := ["0", "1", "3", "4"]


/-- Result of one eval fetch inside `computeMarketPrediction`
(the `.then`/`.catch` wrapper at src/server.js:322-333). -/
structure EvalFetch where
  modelIdx : String
  ok : Bool
  json : Option UpJson
deriving DecidableEq, Repr

/-- One element of `allEvals`: the fetch together with its catch handler. -/
def evalFetchResult (net : Net) (marketId idxStr : String) : EvalFetch :=
  match fetchJson net (.evals marketId idxStr) with
  | .error _ => ⟨idxStr, false, none⟩
  | .ok r => ⟨idxStr, r.ok, r.json⟩

/-- `Array.isArray(r?.json?.evals) ? r.json.evals : []`. -/
def evalsOf (r : EvalFetch) : List EvalRec :=
  (r.json.bind (·.evals)).getD []

/-- Per-record aggregate with non-finite/missing values as 0. -/
def aggregatesOf (evals : List EvalRec) : List ℚ :=
  evals.map (fun e => e.aggregate.getD 0)

/-- Average of the aggregates, 0 when the series is empty. -/
def avgOf (aggregates : List ℚ) : ℚ :=
  if 0 < aggregates.length then aggregates.sum / (aggregates.length : ℚ) else 0

/-- Per-model statistics stored in `perModel`. -/
structure PMStat where
  modelIdx : String
  avgAggregate : ℚ
  perEvalAggregates : List ℚ
  upstream_ok : Bool
deriving DecidableEq, Repr

/-- The key/value pair written into `perModel` for one fetch result. -/
def statOf (entryMap : EntryMap) (r : EvalFetch) : String × PMStat :=
  let modelName := jsOrStr (alookup entryMap r.modelIdx) ("Entry #" ++ r.modelIdx)
  let aggregates := aggregatesOf (evalsOf r)
  (modelName, ⟨r.modelIdx, avgOf aggregates, aggregates, r.ok⟩)

/-- The `for (const r of allEvals)` loop building the `perModel` object. -/
def buildPerModel (entryMap : EntryMap) :
    List EvalFetch → List (String × PMStat) → List (String × PMStat)
  | [], acc => acc
  | r :: rest, acc =>
    let p := statOf entryMap r
    buildPerModel entryMap rest (upsert acc p.1 p.2)

/-- `evalCount = Math.max(evalCount, evals.length)` folded over all models. -/
def evalCountOf (l : List EvalFetch) : Nat :=
  l.foldl (fun n r => max n (evalsOf r).length) 0

/-- `Object.values(perModel).reduce((s, o) => s + o.avgAggregate, 0)`. -/
def totalScoreOf (pm : List (String × PMStat)) : ℚ :=
  (pm.map (fun p => p.2.avgAggregate)).sum

/-- The belief assignment `beliefs[model] = (avg / totalScore) * 100`, in
`perModel` iteration order. -/
def mkBeliefs (total : ℚ) (pm : List (String × PMStat)) : List (String × ℚ) :=
  pm.map (fun p => (p.1, p.2.avgAggregate / total * 100))

/-- The running-max part of the belief loop:
`if (belief > topBelief) { topBelief = belief; predictedWinner = model; }`. -/
def pickTop : List (String × ℚ) → ℚ → Option String → ℚ × Option String
  | [], top, w => (top, w)
  | (m, v) :: rest, top, w =>
    if v > top then pickTop rest v (some m) else pickTop rest top w

/-- One entry of `rankings`. -/
structure RankEntry where
  model : String
  modelIdx : String
  avgScore : ℚ
  perEvalAggregates : List ℚ
deriving DecidableEq, Repr

/-- Stable insertion for the descending-by-avgScore sort (JS `.sort` is stable). -/
def insertRankDesc (x : RankEntry) : List RankEntry → List RankEntry
  | [] => [x]
  | y :: ys => if y.avgScore ≤ x.avgScore then x :: y :: ys else y :: insertRankDesc x ys

/-- `Object.entries(perModel).map(...).sort((a, b) => b.avgScore - a.avgScore)`. -/
def sortRankDesc : List RankEntry → List RankEntry
  | [] => []
  | x :: xs => insertRankDesc x (sortRankDesc xs)

/-- Output shape of `computeMarketPrediction`. -/
structure CMP where
  perModel : List (String × PMStat)
  beliefs : List (String × ℚ)
  predictedWinner : Option String
  topBelief : ℚ
  evalCount : Nat
  rankings : List RankEntry
deriving Repr

/-- `computeMarketPrediction(marketId, entryMap)` (src/server.js:316-381),
returning also the eval requests it issues.  The single JS loop that fills
`beliefs` and tracks `topBelief`/`predictedWinner` is split into `mkBeliefs`
(the assignments, in the same iteration order) and `pickTop` (the running
max over exactly those values). -/
def computeMarketPrediction (net : Net) (marketId : String) (entryMap : EntryMap) :
    CMP × List Req :=
  let idxKeys := entryMap.map Prod.fst
  if idxKeys.length = 0 then
    (⟨[], [], none, 0, 0, []⟩, [])
  else
    let allEvals := idxKeys.map (evalFetchResult net marketId)
    let perModel := buildPerModel entryMap allEvals []
    let totalScore := totalScoreOf perModel
    let beliefs := if totalScore > 0 then mkBeliefs totalScore perModel else []
    let tw := if totalScore > 0 then pickTop beliefs 0 none else (0, none)
    let rankings := sortRankDesc (perModel.map (fun p =>
      ⟨p.1, p.2.modelIdx, p.2.avgAggregate, p.2.perEvalAggregates⟩))
    (⟨perModel, beliefs, tw.2, tw.1, evalCountOf allEvals, rankings⟩,
     idxKeys.map (fun i => Req.evals marketId i))

/-- The numeric value of a JS `price` field after
`typeof price === "string" ? Number(price) : typeof price === "number" ? price : NaN`
and the `Number.isFinite` filter. -/
def priceOf (p : JsPrice) : Option ℚ :=
  match p with
  | .str o => o
  | .num o => o
  | .other => none

/-- The `for (const e of entries)` best-price fold:
`if (!best || price > best.price) best = { idx: String(e.entry_idx), price }`. -/
def bestEntry : List ChartEntry → Option (String × ℚ) → Option (String × ℚ)
  | [], best => best
  | e :: rest, best =>
    match priceOf e.price with
    | none => bestEntry rest best
    | some price =>
      match best with
      | none => bestEntry rest (some (toString e.entry_idx, price))
      | some b =>
        if price > b.2 then bestEntry rest (some (toString e.entry_idx, price))
        else bestEntry rest (some b)

/-- The three-way shape dispatch at the top of `pickWinnerFromChart`
(src/server.js:276-279). -/
def selectMarketChart (chartJson : UpJson) : Option MarketChart :=
  if (chartJson.market_chart.bind (·.data_points)).isSome then chartJson.market_chart
  else if chartJson.data_points.isSome then some ⟨chartJson.data_points⟩
  else if ((chartJson.data.bind (·.market_chart)).bind (·.data_points)).isSome then
    chartJson.data.bind (·.market_chart)
  else none

/-- `pickWinnerFromChart(chartJson, entryMap)` (src/server.js:275-297). -/
def pickWinnerFromChart (chartJson : UpJson) (entryMap : EntryMap) : Option String :=
  match (selectMarketChart chartJson).bind (·.data_points) with
  | none => none
  | some pts =>
    if pts.length = 0 then none
    else
      match pts.getLast? with
      | none => none
      | some last =>
        match last.entries with
        | none => none
        | some entries =>
          if entries.length = 0 then none
          else
            match bestEntry entries none with
            | none => none
            | some best =>
              match alookup entryMap best.1 with
              | some w => if w = "" then none else some w
              | none => none

/-- A winner resolution: the winning model name and its provenance tag. -/
structure WinnerRes where
  actualWinner : String
  source : String
deriving DecidableEq, Repr

/-- `resolveWinnerFromChart(marketId, entryMap, confirmedWinner)`
(src/server.js:299-313), with the requests it issues.  A truthy
`confirmedWinner` short-circuits before any fetch; otherwise the chart is
fetched (that `fetchJson` can reject, which propagates — the function has no
catch of its own). -/
def resolveWinnerFromChart (net : Net) (marketId : String) (entryMap : EntryMap)
    (confirmedWinner : Option String) : Except String WinnerRes × List Req :=
  if jsTruthyStr confirmedWinner then
    (.ok ⟨confirmedWinner.getD "", "confirmed"⟩, [])
  else
    match fetchJson net (.chart marketId "auto") with
    | .error e => (.error e, [.chart marketId "auto"])
    | .ok r =>
      let res :=
        match r.json with
        | some j =>
          if r.ok then
            match pickWinnerFromChart j entryMap with
            | some w => Except.ok (⟨w, "chart_top_price"⟩ : WinnerRes)
            | none => Except.ok (⟨"TBD", "unavailable"⟩ : WinnerRes)
          else Except.ok (⟨"TBD", "unavailable"⟩ : WinnerRes)
        | none => Except.ok (⟨"TBD", "unavailable"⟩ : WinnerRes)
      (res, [.chart marketId "auto"])

/-- Modelled from the spec: the upstream market object of `GET /markets/:id`
with the structured winner fields of spec §4.4 tier 2 (a direct winner-name
field, then candidate winning-index fields in check order, then a nested
resolution/settlement/outcome object's index field).  src/server.js contains
no code reading any of these fields. -/
structure SpecMarketObj where
  winnerName : Option String
  winningIdxFields : List (Option Int)
  nestedResolutionIdx : Option Int
deriving DecidableEq, Repr

/-- First present-and-numeric value among candidate winning-index fields. -/
def firstNumeric : List (Option Int) → Option Int
  | [] => none
  | some q :: _ => some q
  | none :: rest => firstNumeric rest

/-- Modelled from the spec: §4.4 tier 2 — resolve the winner from structured
fields on the upstream market object, translating any index through the entry
map.  Used only to compare the spec's precedence chain against the code's. -/
def resolveWinnerSpecTier2 (mo : SpecMarketObj) (entryMap : EntryMap) :
    Option WinnerRes :=
  match mo.winnerName with
  | some w => some ⟨w, "structured_field"⟩
  | none =>
    match firstNumeric mo.winningIdxFields with
    | some idx => (alookup entryMap (toString idx)).map (fun w => ⟨w, "structured_field"⟩)
    | none =>
      match mo.nestedResolutionIdx with
      | some idx => (alookup entryMap (toString idx)).map (fun w => ⟨w, "structured_field"⟩)
      | none => none

/-- The live-market result shape (src/server.js:217-251). -/
structure LiveMarket where
  market_id : String
  market_name : String
  status : String
  entryMap : EntryMap
  isKnown : Bool
deriving DecidableEq, Repr

/-- The /api/delphi-chart response payload (without headers; `fetched_at` is
the timestamp the ISO string is rendered from). -/
structure ChartResp where
  market_id : String
  timeframe : String
  fetched_at : Int
  market_chart : MarketChart
  entry_map : EntryMap
  entry_map_source : String
deriving DecidableEq, Repr

/-- The /api/human-belief response payload. -/
structure HBResp where
  market_id : String
  market_name : String
  status : String
  fetched_at : Int
  model_names : List String
  raw : List (Option UpJson)
deriving DecidableEq, Repr

/-- The process-wide mutable state: the ghost set (as a membership list) and
the cache slots with their timestamps. -/
structure ServerState where
  ghosts : List String
  liveMarketCache : Option LiveMarket
  liveMarketCacheTime : Int
  delphiChartCache : Option ChartResp
  delphiChartCacheTime : Int
  humanBeliefCache : Option HBResp
  humanBeliefCacheTime : Int
deriving DecidableEq, Repr

/-- Startup state: `GHOST_MARKET_IDS = new Set(["2"])`, all caches empty. -/
def initialState : ServerState := ⟨["2"], none, 0, none, 0, none, 0⟩

/-- `LIVE_MARKET_CACHE_MS` (src/server.js:170). -/
def LIVE_MARKET_CACHE_MS : Int := 60000

/-- `CACHE_DURATION_MS` for the chart cache (src/server.js:11). -/
def CACHE_DURATION_MS : Int := 5000

/-- `HUMAN_BELIEF_CACHE_MS` (src/server.js:15). -/
def HUMAN_BELIEF_CACHE_MS : Int := 8000

/-- `GHOST_MARKET_IDS.add(id)` (JS `Set.add`: no-op when present). -/
def addGhost (g : List String) (id : String) : List String :=
  if id ∈ g then g else g ++ [id]

/-- `marketHasRealData(marketId)` (src/server.js:179-186): probe modelIdx=0;
a rejected fetch is caught to `{ok:false, json:null}`; needs a non-empty
`evals` array. -/
def marketHasRealData (net : Net) (marketId : String) : Bool :=
  let r : FetchJsonRes :=
    match fetchJson net (.evals marketId "0") with
    | .error _ => ⟨false, 0, none, ""⟩
    | .ok r => r
  match r.json.bind (·.evals) with
  | some evals => decide (0 < evals.length)
  | none => false

/-- One probe of `discoverEntryMap`: `r.ok && r.json && Array.isArray(r.json.evals)
&& r.json.evals.length > 0`, with a catch to `ok:false`. -/
def probeOk (net : Net) (marketId : String) (i : Nat) : Bool :=
  match fetchJson net (.evals marketId (toString i)) with
  | .error _ => false
  | .ok r =>
    r.ok &&
      match r.json with
      | some j =>
        match j.evals with
        | some evals => decide (0 < evals.length)
        | none => false
      | none => false

/-- `discoverEntryMap(marketId)` (src/server.js:258-272): probe indices 0-9,
keep the successful ones as `"Entry #i"`, and the requests issued. -/
def discoverEntryMap (net : Net) (marketId : String) : EntryMap × List Req :=
  ((List.range 10).filterMap (fun i =>
      if probeOk net marketId i then some (toString i, "Entry #" ++ toString i) else none),
   (List.range 10).map (fun i => Req.evals marketId (toString i)))

/-- `(b.created_ts || 0)`. -/
def tsOf (m : MarketItem) : ℚ := m.created_ts.getD 0

/-- Stable insertion for the newest-first sort of candidates. -/
def insertByTsDesc (x : MarketItem) : List MarketItem → List MarketItem
  | [] => [x]
  | y :: ys => if tsOf y ≤ tsOf x then x :: y :: ys else y :: insertByTsDesc x ys

/-- `.sort((a, b) => (b.created_ts || 0) - (a.created_ts || 0))` — any stable
sort produces this comparator's unique stable result. -/
def sortByTsDesc : List MarketItem → List MarketItem
  | [] => []
  | x :: xs => insertByTsDesc x (sortByTsDesc xs)

/-- The settled-market fallback value (src/server.js:245-251). -/
def FALLBACK_LIVE : LiveMarket :=
  ⟨"4", MC4.name, "closed", MC4.entryMap, true⟩

/-- The `for (const candidate of candidates)` loop of `detectLiveMarket`
(src/server.js:204-239): threads the ghost set, stops at the first candidate
with real data, logs the probe (and discovery) requests. -/
def detectLoop (net : Net) : List MarketItem → List String →
    Option LiveMarket × List String × List Req
  | [], g => (none, g, [])
  | c :: rest, g =>
    if marketHasRealData net c.market_id then
      match MARKET_CONFIG c.market_id with
      | some cfg =>
        (some ⟨c.market_id, cfg.name, "ongoing", cfg.entryMap, true⟩, g,
         [Req.evals c.market_id "0"])
      | none =>
        let d := discoverEntryMap net c.market_id
        (some ⟨c.market_id, jsOrStr c.market_name ("Market #" ++ c.market_id),
               "ongoing", d.1, false⟩, g,
         Req.evals c.market_id "0" :: d.2)
    else
      let r := detectLoop net rest (addGhost g c.market_id)
      (r.1, r.2.1, Req.evals c.market_id "0" :: r.2.2)

/-- The cache-miss body of `detectLiveMarket` (src/server.js:194-254): the
markets query (whose rejection is caught and falls through to the fallback),
ghost filtering, newest-first sort, the candidate loop, and the fallback.
The second `Date.now()` read on the fallback path is modelled as the same
instant `now`. -/
def detectFresh (st : ServerState) (net : Net) (now : Int) :
    LiveMarket × ServerState × List Req :=
  match fetchJson net (.markets 10 "ongoing") with
  | .error _ =>
    (FALLBACK_LIVE,
     { st with liveMarketCache := some FALLBACK_LIVE, liveMarketCacheTime := now },
     [.markets 10 "ongoing"])
  | .ok r =>
    let items := (r.json.bind (·.items)).getD []
    let candidates := sortByTsDesc (items.filter (fun m => !(decide (m.market_id ∈ st.ghosts))))
    match detectLoop net candidates st.ghosts with
    | (some lm, g, log) =>
      (lm, { st with ghosts := g, liveMarketCache := some lm, liveMarketCacheTime := now },
       .markets 10 "ongoing" :: log)
    | (none, g, log) =>
      (FALLBACK_LIVE,
       { st with ghosts := g, liveMarketCache := some FALLBACK_LIVE, liveMarketCacheTime := now },
       .markets 10 "ongoing" :: log)

/-- `detectLiveMarket()` (src/server.js:188-255): serve the 60s cache when
fresh, otherwise run the detection body.  Total: every upstream failure is
absorbed (detection never throws). -/
def detectLiveMarket (st : ServerState) (net : Net) (now : Int) :
    LiveMarket × ServerState × List Req :=
  match st.liveMarketCache with
  | some lm =>
    if now - st.liveMarketCacheTime < LIVE_MARKET_CACHE_MS then (lm, st, [])
    else detectFresh st net now
  | none => detectFresh st net now

/-- An HTTP response: a JSON payload or an error status. -/
inductive HttpOut (α : Type) where
  | ok (payload : α)
  | err (status : Int) (msg : String)
deriving DecidableEq, Repr

/-- The fetch-and-respond tail of the /api/delphi-chart handler
(src/server.js:588-620): the shape dispatch is the same chain as in
`pickWinnerFromChart`, hence `selectMarketChart`; the outer catch turns a
rejected fetch into a 500. -/
def chartFetch (st : ServerState) (net : Net) (now : Int)
    (marketId timeframe : String) (entryMap : EntryMap) (log : List Req) :
    HttpOut ChartResp × ServerState × List Req :=
  let req := Req.chart marketId timeframe
  match fetchJson net req with
  | .error e => (.err 500 e, st, log ++ [req])
  | .ok r =>
    match r.json with
    | none => (.err 502 "bad_upstream_json", st, log ++ [req])
    | some chart =>
      match selectMarketChart chart with
      | none => (.err 502 "unexpected_upstream_shape", st, log ++ [req])
      | some mc =>
        let response : ChartResp := ⟨marketId, timeframe, now, mc, entryMap, "confirmed_config"⟩
        (.ok response,
         { st with delphiChartCache := some response, delphiChartCacheTime := now },
         log ++ [req])

/-- The /api/delphi-chart handler (src/server.js:572-624): resolve the market
id (query param, falling back to the detected live market), invalidate the
chart cache on market change, serve it within the 5s TTL, else fetch. -/
def chartHandler (st : ServerState) (net : Net) (now : Int)
    (timeframeQ marketIdQ : Option String) :
    HttpOut ChartResp × ServerState × List Req :=
  let timeframe := jsOrStr timeframeQ "auto"
  let d := detectLiveMarket st net now
  let live := d.1
  let st₁ := d.2.1
  let log₁ := d.2.2
  let marketId := if jsTruthyStr marketIdQ then marketIdQ.getD "" else live.market_id
  let entryMap :=
    match MARKET_CONFIG marketId with
    | some c => c.entryMap
    | none => if marketId = live.market_id then live.entryMap else []
  let st₂ :=
    match st₁.delphiChartCache with
    | some c =>
      if c.market_id ≠ marketId then
        { st₁ with delphiChartCache := none, delphiChartCacheTime := 0 }
      else st₁
    | none => st₁
  match st₂.delphiChartCache with
  | some c =>
    if now - st₂.delphiChartCacheTime < CACHE_DURATION_MS then (.ok c, st₂, log₁)
    else chartFetch st₂ net now marketId timeframe entryMap log₁
  | none => chartFetch st₂ net now marketId timeframe entryMap log₁

/-- The /api/human-belief handler (src/server.js:627-668): always bound to the
detected live market; invalidate on market change, serve within the 8s TTL,
else issue one `fetchJsonWithTimeout` per model (none of which can reject)
and cache the payload. -/
def humanBeliefHandler (st : ServerState) (net : Net) (now : Int) :
    HttpOut HBResp × ServerState × List Req :=
  let d := detectLiveMarket st net now
  let live := d.1
  let st₁ := d.2.1
  let log₁ := d.2.2
  let marketId := live.market_id
  let entryMap := live.entryMap
  let modelCount := entryMap.length
  let st₂ :=
    match st₁.humanBeliefCache with
    | some c =>
      if c.market_id ≠ marketId then
        { st₁ with humanBeliefCache := none, humanBeliefCacheTime := 0 }
      else st₁
    | none => st₁
  let hit : Option HBResp :=
    match st₂.humanBeliefCache with
    | some c => if now - st₂.humanBeliefCacheTime < HUMAN_BELIEF_CACHE_MS then some c else none
    | none => none
  match hit with
  | some c => (.ok c, st₂, log₁)
  | none =>
    let raw := (List.range modelCount).map (fun i =>
      (fetchJsonWithTimeout net (Req.evals marketId (toString i))).json)
    let modelNames := (List.range modelCount).map (fun i =>
      jsOrStr (alookup entryMap (toString i)) ("Entry #" ++ toString i))
    let payload : HBResp := ⟨marketId, live.market_name, live.status, now, modelNames, raw⟩
    (.ok payload,
     { st₂ with humanBeliefCache := some payload, humanBeliefCacheTime := now },
     log₁ ++ (List.range modelCount).map (fun i => Req.evals marketId (toString i)))

/-- The effective model name used for index `i` inside the prediction loop:
`entryMap[String(r.modelIdx)] || "Entry #" + idx`. -/
def effName (entryMap : EntryMap) (i : String) : String :=
  jsOrStr (alookup entryMap i) ("Entry #" ++ i)

/-- The average aggregate score `computeMarketPrediction` derives for model
index `i` of a market: fetch, catch, extract, zero-fill, average. -/
def modelAvg (net : Net) (marketId i : String) : ℚ :=
  avgOf (aggregatesOf (evalsOf (evalFetchResult net marketId i)))

/-- The `perModel` entry produced for index `i`. -/
def modelStat (net : Net) (marketId : String) (entryMap : EntryMap) (i : String) :
    String × PMStat :=
  statOf entryMap (evalFetchResult net marketId i)

/-- The items the ongoing-markets query yields (empty on outage or bad body). -/
def itemsOf (net : Net) : List MarketItem :=
  match net (.markets 10 "ongoing") with
  | .tthrow _ => []
  | .treply _ _ _ j => (j.bind (·.items)).getD []

/-- The market id a /api/delphi-chart request resolves to: a truthy
`market_id` query parameter, else the detected live market. -/
def chartMarketIdOf (st : ServerState) (net : Net) (now : Int)
    (marketIdQ : Option String) : String :=
  if jsTruthyStr marketIdQ then marketIdQ.getD ""
  else (detectLiveMarket st net now).1.market_id

/-- A network where every request fails in transport. -/
def netOutage : Net := fun _ => .tthrow "fetch failed: ECONNREFUSED"

/-- A network replying 200 with a non-JSON body to everything. -/
def netNonJson : Net := fun _ => .treply true 200 "<html>oops</html>" none

/-- A two-model entry map. -/
def emXY : EntryMap := [("0", "X"), ("1", "Y")]

/-- Evals for market "m": model 0 scores [10, 20], model 1 scores [5]. -/
def netEvalsXY : Net := fun r =>
  match r with
  | .evals "m" "0" => .treply true 200 "json" (some { evals := some [⟨some 10⟩, ⟨some 20⟩] })
  | .evals "m" "1" => .treply true 200 "json" (some { evals := some [⟨some 5⟩] })
  | _ => .tthrow "unreachable"

/-- Evals for market "m": every model has an empty eval series. -/
def netEvalsEmpty : Net := fun r =>
  match r with
  | .evals "m" _ => .treply true 200 "json" (some { evals := some [] })
  | _ => .tthrow "unreachable"

/-- A chart whose latest data point prices index 1 above index 0. -/
def chartJsonTopB : UpJson :=
  { market_chart := some ⟨some [⟨some [⟨0, .num (some 1)⟩, ⟨1, .num (some 3)⟩]⟩]⟩ }

/-- Entry map sending index 0 to "X" and index 1 to "B". -/
def emXB : EntryMap := [("0", "X"), ("1", "B")]

/-- A network serving `chartJsonTopB` for every chart request. -/
def netChartTopB : Net := fun r =>
  match r with
  | .chart _ _ => .treply true 200 "json" (some chartJsonTopB)
  | _ => .tthrow "unreachable"

/-- An upstream market object whose direct winner-name field names "X". -/
def marketObjWinnerX : SpecMarketObj := ⟨some "X", [], none⟩

/-- A network with no ongoing markets and a valid chart for market "4". -/
def netChart4 : Net := fun r =>
  match r with
  | .markets _ _ => .treply true 200 "json" (some { items := some [] })
  | .chart "4" _ =>
    .treply true 200 "json" (some { market_chart := some ⟨some [⟨some [⟨0, .num (some 7)⟩]⟩]⟩ })
  | _ => .tthrow "unreachable"

/-- A network whose only ongoing market "7" has no eval data (a ghost). -/
def netGhost7 : Net := fun r =>
  match r with
  | .markets 10 "ongoing" =>
    .treply true 200 "json" (some { items := some [⟨"7", some "Ghost Market", some 5⟩] })
  | .evals "7" "0" => .treply true 200 "json" (some { evals := some [] })
  | _ => .tthrow "unreachable"

/-- A chart payload bound to market "9". -/
def oldChartPayload : ChartResp := ⟨"9", "auto", 0, ⟨some []⟩, [], "confirmed_config"⟩

/-- A human-belief payload bound to market "9". -/
def oldHBPayload : HBResp := ⟨"9", "Stale Market", "ongoing", 0, [], []⟩

/-- A state whose chart and human-belief caches are fresh but bound to market
"9" while the cached live market is "4". -/
def stStale : ServerState :=
  { ghosts := ["2"], liveMarketCache := some FALLBACK_LIVE, liveMarketCacheTime := 1000,
    delphiChartCache := some oldChartPayload, delphiChartCacheTime := 1000,
    humanBeliefCache := some oldHBPayload, humanBeliefCacheTime := 1000 }

/-- The chart payload the first request of the C10 scenario produces. -/
def chartPayload4 : ChartResp :=
  ⟨"4", "auto", 1000, ⟨some [⟨some [⟨0, .num (some 7)⟩]⟩]⟩, MC4.entryMap, "confirmed_config"⟩

/-- C2, counterexample.  The claim says `fetchJson` never throws to its caller
on transport failure; but only `JSON.parse` is inside its `try`, so the
rejection of `fetchText` (modelled as `Except.error`) propagates: on a network
where the fetch rejects, `fetchJson` yields `.error`, not an `ok=false`
result.  (This is why its callers in src/server.js attach `.catch` handlers.) -/
theorem C2_counterexample :
    fetchJson netOutage (Req.markets 10 "ongoing") =
      Except.error "fetch failed: ECONNREFUSED" := rfl

/-- C2, amended: on a completed HTTP exchange with a non-JSON body `fetchJson`
returns `ok=false, json=null` with the raw text preserved, and on a parsed
body it returns the parse with the transport's `ok`; but on transport failure
the exception propagates to the caller instead of being absorbed. -/
theorem C2_fetchJson_contract {α : Type} (net : α → TransportResult) (url : α) :
    (∀ ok status text, net url = .treply ok status text none →
        fetchJson net url = .ok ⟨false, status, none, text⟩) ∧
    (∀ ok status text j, net url = .treply ok status text (some j) →
        fetchJson net url = .ok ⟨ok, status, some j, text⟩) ∧
    (∀ e, net url = .tthrow e → fetchJson net url = .error e) := by
  refine ⟨?_, ?_, ?_⟩ <;> intros <;> simp_all [fetchJson]

/-- C2, witness: the amended contract applied to a concrete 200 response whose
body is not JSON. -/
theorem C2_witness :
    fetchJson netNonJson (Req.markets 10 "ongoing") =
      Except.ok ⟨false, 200, none, "<html>oops</html>"⟩ :=
  (C2_fetchJson_contract netNonJson (Req.markets 10 "ongoing")).1 true 200
    "<html>oops</html>" rfl

/-- C4: when the market has a confirmed winner in MARKET_CONFIG, the resolver
returns it with provenance "confirmed" for every network — in particular
whatever the chart says — and issues no upstream request at all. -/
theorem C4_confirmed_beats_chart (net : Net) (marketId : String)
    (entryMap : EntryMap) (cfg : MarketCfg)
    (hcfg : MARKET_CONFIG marketId = some cfg) :
    resolveWinnerFromChart net marketId entryMap (some cfg.confirmedWinner) =
      (Except.ok ⟨cfg.confirmedWinner, "confirmed"⟩, []) := by
  have hw : cfg.confirmedWinner ≠ "" := by
    unfold MARKET_CONFIG at hcfg
    split_ifs at hcfg <;>
      first
      | exact Option.noConfusion hcfg
      | (injection hcfg with h; subst h; decide)
  simp [resolveWinnerFromChart, jsTruthyStr, hw]

/-- C4, witness: market "3" has confirmed winner Qwen/Qwen3-8B; against a
network whose chart prices a different model ("B") on top, the resolver still
returns the confirmed winner and performs no fetch. -/
theorem C4_witness :
    resolveWinnerFromChart netChartTopB "3" MC3.entryMap (some MC3.confirmedWinner) =
      (Except.ok ⟨"Qwen/Qwen3-8B", "confirmed"⟩, []) :=
  C4_confirmed_beats_chart netChartTopB "3" MC3.entryMap MC3 (by decide)

/-- C3, counterexample.  The claim says the resolver checks structured winner
fields on the upstream market object before falling back to the chart top
price.  The code's `resolveWinnerFromChart` does not take or fetch the market
object at all: on a market with no confirmed winner whose (spec-modelled)
market object carries the direct winner-name "X", the code returns the
chart-derived "B" with provenance "chart_top_price", while the spec's tier-2
resolver would return "X". -/
theorem C3_counterexample :
    resolveWinnerFromChart netChartTopB "7" emXB none =
        (Except.ok ⟨"B", "chart_top_price"⟩, [Req.chart "7" "auto"]) ∧
    resolveWinnerSpecTier2 marketObjWinnerX emXB =
        some ⟨"X", "structured_field"⟩ ∧
    ("B" : String) ≠ "X" := by
  refine ⟨by decide, by decide, by decide⟩

/-- C3, amended: for a market with no confirmed winner the resolver skips any
structured-field tier: it issues exactly the chart request (never the
market-object request) and every successful resolution carries provenance
"chart_top_price" or "unavailable". -/
theorem C3_no_structured_tier (net : Net) (marketId : String) (entryMap : EntryMap) :
    (resolveWinnerFromChart net marketId entryMap none).2 = [Req.chart marketId "auto"] ∧
    (∀ id, Req.marketObj id ∉ (resolveWinnerFromChart net marketId entryMap none).2) ∧
    (∀ w s, (resolveWinnerFromChart net marketId entryMap none).1 = .ok ⟨w, s⟩ →
        s = "chart_top_price" ∨ s = "unavailable") := by
  refine ⟨?_, ?_, ?_⟩
  · unfold resolveWinnerFromChart
    rcases h : fetchJson net (Req.chart marketId "auto") with e | r <;>
      simp [jsTruthyStr, h]
  · intro id
    unfold resolveWinnerFromChart
    rcases h : fetchJson net (Req.chart marketId "auto") with e | r <;>
      simp [jsTruthyStr, h]
  · intro w s hs
    unfold resolveWinnerFromChart at hs
    simp only [jsTruthyStr] at hs
    rcases h : fetchJson net (Req.chart marketId "auto") with e | r <;>
      rw [h] at hs <;> simp at hs
    split at hs <;> (try split at hs) <;> (try split at hs) <;> simp_all

/-- C3, witness for the amended theorem: the concrete chart-top scenario. -/
theorem C3_witness :
    (resolveWinnerFromChart netChartTopB "7" emXB none).2 = [Req.chart "7" "auto"] ∧
    (("chart_top_price" : String) = "chart_top_price" ∨ ("chart_top_price" : String) = "unavailable") :=
  ⟨(C3_no_structured_tier netChartTopB "7" emXB).1,
   (C3_no_structured_tier netChartTopB "7" emXB).2.2 "B" "chart_top_price" (by decide)⟩

/-- Pointwise-equal functions map lists equally. -/
theorem map_eq_map_of_mem {α β : Type} {l : List α} {f g : α → β}
    (h : ∀ a ∈ l, f a = g a) : l.map f = l.map g := by
  induction l with
  | nil => rfl
  | cons a l ih =>
    simp only [List.map_cons]
    rw [h a (by simp), ih (fun b hb => h b (by simp [hb]))]

/-- On a key-nodup association list, lookup finds any member's value. -/
theorem alookup_of_nodup_mem {α : Type} {l : List (String × α)} {k : String} {v : α}
    (hnd : (l.map Prod.fst).Nodup) (hm : (k, v) ∈ l) : alookup l k = some v := by
  induction l with
  | nil => cases hm
  | cons p rest ih =>
    obtain ⟨k₀, v₀⟩ := p
    simp only [List.map_cons, List.nodup_cons] at hnd
    rcases List.mem_cons.mp hm with h | h
    · obtain ⟨h1, h2⟩ := Prod.mk.injEq .. ▸ h
      simp [alookup, h1.symm, h2]
    · have hkne : k₀ ≠ k := by
        intro he
        exact hnd.1 (he ▸ (List.mem_map.mpr ⟨(k, v), h, rfl⟩))
      simp only [alookup, if_neg hkne]
      exact ih hnd.2 h

/-- Writing a fresh key appends. -/
theorem upsert_not_mem {α : Type} {l : List (String × α)} {k : String} (v : α)
    (h : k ∉ l.map Prod.fst) : upsert l k v = l ++ [(k, v)] := by
  induction l with
  | nil => rfl
  | cons p rest ih =>
    obtain ⟨k₀, v₀⟩ := p
    simp only [List.map_cons, List.mem_cons, not_or] at h
    simp only [upsert, if_neg (Ne.symm h.1), List.cons_append]
    rw [ih h.2]

/-- When all produced keys (accumulator's and the batch's) are distinct, the
`perModel` fold is a plain append of mapped entries. -/
theorem buildPerModel_append (entryMap : EntryMap) :
    ∀ (l : List EvalFetch) (acc : List (String × PMStat)),
      ((acc.map Prod.fst) ++ l.map (fun r => (statOf entryMap r).1)).Nodup →
      buildPerModel entryMap l acc = acc ++ l.map (statOf entryMap) := by
  intro l
  induction l with
  | nil => intro acc _; simp [buildPerModel]
  | cons r rest ih =>
    intro acc h
    have hfresh : (statOf entryMap r).1 ∉ acc.map Prod.fst := by
      rcases List.nodup_append.mp h with ⟨-, -, hdis⟩
      exact fun hk => hdis hk (by simp)
    have h' : (((acc ++ [statOf entryMap r]).map Prod.fst) ++
        rest.map (fun q => (statOf entryMap q).1)).Nodup := by
      simpa [List.map_append, List.append_assoc] using h
    calc buildPerModel entryMap (r :: rest) acc
        = buildPerModel entryMap rest (acc ++ [statOf entryMap r]) := by
          rw [buildPerModel, upsert_not_mem _ hfresh]
      _ = (acc ++ [statOf entryMap r]) ++ rest.map (statOf entryMap) := ih _ h'
      _ = acc ++ (r :: rest).map (statOf entryMap) := by simp

/-- With globally distinct effective names, `perModel` is the mapped entry list. -/
theorem buildPerModel_eq_map (entryMap : EntryMap) (l : List EvalFetch)
    (h : (l.map (fun r => (statOf entryMap r).1)).Nodup) :
    buildPerModel entryMap l [] = l.map (statOf entryMap) := by
  simpa using buildPerModel_append entryMap l [] (by simpa using h)

/-- The fetch wrapper tags the result with the index it fetched. -/
theorem evalFetchResult_modelIdx (net : Net) (marketId i : String) :
    (evalFetchResult net marketId i).modelIdx = i := by
  cases h : fetchJson net (Req.evals marketId i) <;> simp [evalFetchResult, h]

/-- The `perModel` key produced for index `i` is its effective name. -/
theorem statOf_fst (net : Net) (entryMap : EntryMap) (marketId i : String) :
    (statOf entryMap (evalFetchResult net marketId i)).1 = effName entryMap i := by
  simp [statOf, effName, evalFetchResult_modelIdx]

/-- The `perModel` value produced for index `i` carries its average score. -/
theorem statOf_avg (net : Net) (entryMap : EntryMap) (marketId i : String) :
    (statOf entryMap (evalFetchResult net marketId i)).2.avgAggregate =
      modelAvg net marketId i := rfl

/-- `perModel` of `computeMarketPrediction` is the fold over the fetched list
(the empty-entry-map early return produces the same empty fold). -/
theorem cmp_perModel (net : Net) (marketId : String) (entryMap : EntryMap) :
    (computeMarketPrediction net marketId entryMap).1.perModel =
      buildPerModel entryMap ((entryMap.map Prod.fst).map (evalFetchResult net marketId)) [] := by
  cases entryMap <;> simp [computeMarketPrediction, buildPerModel]

/-- With a positive total, `beliefs` is the normalized map over `perModel`. -/
theorem cmp_beliefs_pos (net : Net) (marketId : String) (entryMap : EntryMap)
    (h : 0 < totalScoreOf (computeMarketPrediction net marketId entryMap).1.perModel) :
    (computeMarketPrediction net marketId entryMap).1.beliefs =
      mkBeliefs (totalScoreOf (computeMarketPrediction net marketId entryMap).1.perModel)
        (computeMarketPrediction net marketId entryMap).1.perModel := by
  rw [cmp_perModel] at h ⊢
  cases entryMap with
  | nil => simp [buildPerModel, totalScoreOf] at h
  | cons p l =>
    unfold computeMarketPrediction
    rw [if_neg (by simp)]
    dsimp only
    split_ifs with hc
    · rfl
    · exact absurd h hc

/-- With a positive total, the top/winner pair is the running-max fold over
the belief list. -/
theorem cmp_top_pos (net : Net) (marketId : String) (entryMap : EntryMap)
    (h : 0 < totalScoreOf (computeMarketPrediction net marketId entryMap).1.perModel) :
    ((computeMarketPrediction net marketId entryMap).1.topBelief,
      (computeMarketPrediction net marketId entryMap).1.predictedWinner) =
      pickTop (computeMarketPrediction net marketId entryMap).1.beliefs 0 none := by
  rw [cmp_beliefs_pos net marketId entryMap h]
  rw [cmp_perModel] at h ⊢
  cases entryMap with
  | nil => simp [buildPerModel, totalScoreOf] at h
  | cons p l =>
    unfold computeMarketPrediction
    rw [if_neg (by simp)]
    dsimp only
    split_ifs with hc
    · rfl
    · exact absurd h hc

/-- Sums distribute over the per-entry normalization. -/
theorem sum_map_div_mul (l : List ℚ) (T : ℚ) :
    (l.map (fun a => a / T * 100)).sum = l.sum / T * 100 := by
  induction l with
  | nil => simp
  | cons a l ih => simp [ih, add_div, add_mul]

/-- The running-max fold ignores entries no larger than the accumulator. -/
theorem pickTop_all_le (l : List (String × ℚ)) (top : ℚ) (w : Option String)
    (h : ∀ p ∈ l, p.2 ≤ top) : pickTop l top w = (top, w) := by
  induction l generalizing top w with
  | nil => rfl
  | cons p rest ih =>
    obtain ⟨m, v⟩ := p
    have hv : v ≤ top := h (m, v) (by simp)
    simp only [pickTop, if_neg (not_lt.mpr hv)]
    exact ih top w (fun q hq => h q (List.mem_cons_of_mem _ hq))

/-- The running-max fold selects the first entry that strictly dominates all
earlier entries and is not exceeded later. -/
theorem pickTop_first_max :
    ∀ (l₁ : List (String × ℚ)) (m : String) (v : ℚ) (l₂ : List (String × ℚ))
      (top : ℚ) (w : Option String),
      (∀ p ∈ l₁, p.2 < v) → top < v → (∀ p ∈ l₂, p.2 ≤ v) →
      pickTop (l₁ ++ (m, v) :: l₂) top w = (v, some m)
  | [], m, v, l₂, top, w, _, ht, h₂ => by
    simp only [List.nil_append, pickTop, if_pos ht]
    exact pickTop_all_le l₂ v (some m) h₂
  | (m₀, v₀) :: l₁, m, v, l₂, top, w, h₁, ht, h₂ => by
    have hv₀ : v₀ < v := h₁ (m₀, v₀) (by simp)
    simp only [List.cons_append, pickTop]
    by_cases hc : v₀ > top
    · rw [if_pos hc]
      exact pickTop_first_max l₁ m v l₂ v₀ (some m₀)
        (fun p hp => h₁ p (by simp [hp])) hv₀ h₂
    · rw [if_neg hc]
      exact pickTop_first_max l₁ m v l₂ top w
        (fun p hp => h₁ p (by simp [hp])) ht h₂

/-- Every non-empty value list splits at its first maximum. -/
theorem exists_first_max :
    ∀ (l : List (String × ℚ)), l ≠ [] →
      ∃ l₁ m v l₂, l = l₁ ++ (m, v) :: l₂ ∧
        (∀ p ∈ l₁, p.2 < v) ∧ (∀ p ∈ l₂, p.2 ≤ v)
  | [], h => absurd rfl h
  | (m₀, v₀) :: rest, _ => by
    rcases eq_or_ne rest [] with hr | hr
    · exact ⟨[], m₀, v₀, [], by simp [hr], by simp, by simp⟩
    · obtain ⟨l₁, m, v, l₂, heq, h₁, h₂⟩ := exists_first_max rest hr
      by_cases hv : v ≤ v₀
      · refine ⟨[], m₀, v₀, rest, by simp, by simp, ?_⟩
        intro p hp
        rw [heq] at hp
        rcases List.mem_append.mp hp with h | h
        · exact le_of_lt (lt_of_lt_of_le (h₁ p h) hv)
        · rcases List.mem_cons.mp h with h | h
          · rw [h]; exact hv
          · exact le_trans (h₂ p h) hv
      · push_neg at hv
        refine ⟨(m₀, v₀) :: l₁, m, v, l₂, by simp [heq], ?_, h₂⟩
        intro p hp
        rcases List.mem_cons.mp hp with h | h
        · rw [h]; exact hv
        · exact h₁ p h

/-- A list with a positive sum has a positive member. -/
theorem exists_pos_mem_of_sum_pos :
    ∀ (l : List ℚ), 0 < l.sum → ∃ a ∈ l, 0 < a
  | [], h => absurd h (by simp)
  | a :: l, h => by
    by_cases ha : 0 < a
    · exact ⟨a, by simp, ha⟩
    · push_neg at ha
      simp only [List.sum_cons] at h
      have hl : 0 < l.sum := by linarith
      obtain ⟨b, hb, hpos⟩ := exists_pos_mem_of_sum_pos l hl
      exact ⟨b, by simp [hb], hpos⟩

/-- With a positive total, the belief values sum to exactly 100 over ℚ. -/
theorem beliefs_sum_eq_100 (net : Net) (marketId : String) (entryMap : EntryMap)
    (hpos : 0 < totalScoreOf (computeMarketPrediction net marketId entryMap).1.perModel) :
    (((computeMarketPrediction net marketId entryMap).1.beliefs).map Prod.snd).sum = 100 := by
  rw [cmp_beliefs_pos net marketId entryMap hpos]
  have hT : totalScoreOf (computeMarketPrediction net marketId entryMap).1.perModel ≠ 0 :=
    ne_of_gt hpos
  simp only [mkBeliefs, List.map_map]
  have := sum_map_div_mul
    (((computeMarketPrediction net marketId entryMap).1.perModel).map (fun p => p.2.avgAggregate))
    (totalScoreOf (computeMarketPrediction net marketId entryMap).1.perModel)
  rw [show ((computeMarketPrediction net marketId entryMap).1.perModel).map
        (Prod.snd ∘ fun p => (p.1, p.2.avgAggregate /
          totalScoreOf (computeMarketPrediction net marketId entryMap).1.perModel * 100)) =
      (((computeMarketPrediction net marketId entryMap).1.perModel).map
        (fun p => p.2.avgAggregate)).map (fun a => a /
          totalScoreOf (computeMarketPrediction net marketId entryMap).1.perModel * 100) by
    simp [List.map_map]]
  rw [this]
  rw [show (((computeMarketPrediction net marketId entryMap).1.perModel).map
      (fun p => p.2.avgAggregate)).sum =
      totalScoreOf (computeMarketPrediction net marketId entryMap).1.perModel from rfl]
  rw [div_self hT, one_mul]

/-- With distinct keys and non-empty names, the effective name of each entry
is its configured model name. -/
theorem effName_eq (entryMap : EntryMap)
    (hk : (entryMap.map Prod.fst).Nodup)
    (hne : ∀ p ∈ entryMap, p.2 ≠ "") :
    ∀ p ∈ entryMap, effName entryMap p.1 = p.2 := by
  intro p hp
  have hl : alookup entryMap p.1 = some p.2 := alookup_of_nodup_mem hk hp
  simp [effName, hl, jsOrStr, hne p hp]

/-- With distinct keys and distinct non-empty names, `perModel` is exactly the
entry list mapped through the per-index statistics. -/
theorem perModel_eq_map (net : Net) (marketId : String) (entryMap : EntryMap)
    (hk : (entryMap.map Prod.fst).Nodup)
    (hn : (entryMap.map Prod.snd).Nodup)
    (hne : ∀ p ∈ entryMap, p.2 ≠ "") :
    (computeMarketPrediction net marketId entryMap).1.perModel =
      entryMap.map (fun p => statOf entryMap (evalFetchResult net marketId p.1)) := by
  have hnd : (((entryMap.map Prod.fst).map (evalFetchResult net marketId)).map
      (fun r => (statOf entryMap r).1)).Nodup := by
    have heq2 : ((entryMap.map Prod.fst).map (evalFetchResult net marketId)).map
        (fun r => (statOf entryMap r).1) = entryMap.map Prod.snd := by
      rw [List.map_map, List.map_map]
      exact map_eq_map_of_mem (fun p hp => by
        simp only [Function.comp_apply]
        rw [statOf_fst, effName_eq entryMap hk hne p hp])
    rw [heq2]
    exact hn
  rw [cmp_perModel, buildPerModel_eq_map entryMap _ hnd, List.map_map, List.map_map]
  exact map_eq_map_of_mem (fun p _ => rfl)

/-- With distinct keys and distinct non-empty names and a positive total, the
belief keys are the model names in entry-map index order. -/
theorem beliefs_keys_eq (net : Net) (marketId : String) (entryMap : EntryMap)
    (hk : (entryMap.map Prod.fst).Nodup)
    (hn : (entryMap.map Prod.snd).Nodup)
    (hne : ∀ p ∈ entryMap, p.2 ≠ "")
    (hpos : 0 < totalScoreOf (computeMarketPrediction net marketId entryMap).1.perModel) :
    ((computeMarketPrediction net marketId entryMap).1.beliefs).map Prod.fst =
      entryMap.map Prod.snd := by
  rw [cmp_beliefs_pos net marketId entryMap hpos,
      perModel_eq_map net marketId entryMap hk hn hne]
  simp only [mkBeliefs, List.map_map]
  refine map_eq_map_of_mem ?_
  intro p hp
  simp only [Function.comp_apply]
  rw [statOf_fst, effName_eq entryMap hk hne p hp]

/-- C1: on any market and non-empty entry map with distinct indices and
distinct non-empty model names, when the total of all average aggregate scores
is strictly positive, every model's belief equals (its average ÷ total) × 100
and the belief values sum to exactly 100 over ℚ. -/
theorem C1_beliefs_normalized (net : Net) (marketId : String) (entryMap : EntryMap)
    (hk : (entryMap.map Prod.fst).Nodup)
    (hn : (entryMap.map Prod.snd).Nodup)
    (hne : ∀ p ∈ entryMap, p.2 ≠ "")
    (_hem : entryMap ≠ [])
    (hpos : 0 < totalScoreOf (computeMarketPrediction net marketId entryMap).1.perModel) :
    (∀ p ∈ entryMap,
      alookup (computeMarketPrediction net marketId entryMap).1.beliefs p.2 =
        some (modelAvg net marketId p.1 /
          totalScoreOf (computeMarketPrediction net marketId entryMap).1.perModel * 100)) ∧
    (((computeMarketPrediction net marketId entryMap).1.beliefs).map Prod.snd).sum = 100 := by
  refine ⟨?_, beliefs_sum_eq_100 net marketId entryMap hpos⟩
  intro p hp
  have hkeys : (((computeMarketPrediction net marketId entryMap).1.beliefs).map Prod.fst).Nodup := by
    rw [beliefs_keys_eq net marketId entryMap hk hn hne hpos]
    exact hn
  have hmem : (p.2, modelAvg net marketId p.1 /
      totalScoreOf (computeMarketPrediction net marketId entryMap).1.perModel * 100) ∈
      (computeMarketPrediction net marketId entryMap).1.beliefs := by
    rw [cmp_beliefs_pos net marketId entryMap hpos,
        perModel_eq_map net marketId entryMap hk hn hne]
    simp only [mkBeliefs, List.map_map]
    refine List.mem_map.mpr ⟨p, hp, ?_⟩
    simp only [Function.comp_apply]
    rw [statOf_fst, statOf_avg, effName_eq entryMap hk hne p hp]
  exact alookup_of_nodup_mem hkeys hmem

/-- C6: when the total of all models' average scores is 0, the belief map is
empty and no winner is predicted. -/
theorem C6_zero_total (net : Net) (marketId : String) (entryMap : EntryMap)
    (h : totalScoreOf (computeMarketPrediction net marketId entryMap).1.perModel = 0) :
    (computeMarketPrediction net marketId entryMap).1.beliefs = [] ∧
    (computeMarketPrediction net marketId entryMap).1.predictedWinner = none := by
  rw [cmp_perModel] at h
  cases entryMap with
  | nil => exact ⟨rfl, rfl⟩
  | cons p l =>
    unfold computeMarketPrediction
    rw [if_neg (by simp)]
    dsimp only
    split_ifs with hc
    · rw [h] at hc; exact absurd hc (lt_irrefl 0)
    · exact ⟨rfl, rfl⟩

/-- C7: with a positive total (and well-formed entry map), the predicted
winner is the first entry of the belief list attaining the maximal belief:
entries before it are strictly smaller, no entry exceeds it, and the belief
list is in entry-map index order (its keys are the model names in that
order), so ties go to the earliest index. -/
theorem C7_winner_first_max (net : Net) (marketId : String) (entryMap : EntryMap)
    (hk : (entryMap.map Prod.fst).Nodup)
    (hn : (entryMap.map Prod.snd).Nodup)
    (hne : ∀ p ∈ entryMap, p.2 ≠ "")
    (hpos : 0 < totalScoreOf (computeMarketPrediction net marketId entryMap).1.perModel) :
    ∃ l₁ m v l₂,
      (computeMarketPrediction net marketId entryMap).1.beliefs = l₁ ++ (m, v) :: l₂ ∧
      (computeMarketPrediction net marketId entryMap).1.predictedWinner = some m ∧
      (computeMarketPrediction net marketId entryMap).1.topBelief = v ∧
      (∀ p ∈ l₁, p.2 < v) ∧
      (∀ p ∈ (computeMarketPrediction net marketId entryMap).1.beliefs, p.2 ≤ v) ∧
      ((computeMarketPrediction net marketId entryMap).1.beliefs).map Prod.fst =
        entryMap.map Prod.snd := by
  have hsum := beliefs_sum_eq_100 net marketId entryMap hpos
  have hnil : (computeMarketPrediction net marketId entryMap).1.beliefs ≠ [] := by
    intro h0
    rw [h0] at hsum
    simp at hsum
  obtain ⟨l₁, m, v, l₂, heq, h₁, h₂⟩ := exists_first_max _ hnil
  have hmax : ∀ p ∈ (computeMarketPrediction net marketId entryMap).1.beliefs, p.2 ≤ v := by
    intro p hp
    rw [heq] at hp
    rcases List.mem_append.mp hp with h | h
    · exact le_of_lt (h₁ p h)
    · rcases List.mem_cons.mp h with h | h
      · rw [h]
      · exact h₂ p h
  have hvpos : 0 < v := by
    obtain ⟨a, ha, hapos⟩ := exists_pos_mem_of_sum_pos _ (by rw [hsum]; norm_num)
    obtain ⟨p, hp, hpa⟩ := List.mem_map.mp ha
    calc (0 : ℚ) < a := hapos
      _ = p.2 := hpa.symm
      _ ≤ v := hmax p hp
  have htop := cmp_top_pos net marketId entryMap hpos
  rw [heq, pickTop_first_max l₁ m v l₂ 0 none h₁ hvpos h₂] at htop
  refine ⟨l₁, m, v, l₂, heq, ?_, ?_, h₁, hmax,
    beliefs_keys_eq net marketId entryMap hk hn hne hpos⟩
  · exact (Prod.ext_iff.mp htop).2
  · exact (Prod.ext_iff.mp htop).1

/-- C1, witness: the spec §8 end-to-end example — X has evals [10, 20]
(average 15), Y has [5] (average 5); the theorem instantiated here yields
X's belief = 15/20×100 and a belief sum of exactly 100. -/
theorem C1_witness :
    alookup (computeMarketPrediction netEvalsXY "m" emXY).1.beliefs "X" =
      some (modelAvg netEvalsXY "m" "0" /
        totalScoreOf (computeMarketPrediction netEvalsXY "m" emXY).1.perModel * 100) ∧
    (((computeMarketPrediction netEvalsXY "m" emXY).1.beliefs).map Prod.snd).sum = 100 := by
  have h := C1_beliefs_normalized netEvalsXY "m" emXY (by decide) (by decide) (by decide)
    (by decide)
    (by simp [computeMarketPrediction, emXY, totalScoreOf, buildPerModel, statOf,
        evalFetchResult, fetchJson, netEvalsXY, evalsOf, aggregatesOf, avgOf, upsert,
        alookup, jsOrStr]
        norm_num)
  exact ⟨h.1 ("0", "X") (by decide), h.2⟩

/-- C6, witness: all models have empty eval series, so the total is 0, the
belief map is empty and there is no predicted winner. -/
theorem C6_witness :
    (computeMarketPrediction netEvalsEmpty "m" emXY).1.beliefs = [] ∧
    (computeMarketPrediction netEvalsEmpty "m" emXY).1.predictedWinner = none :=
  C6_zero_total netEvalsEmpty "m" emXY (by
    simp [computeMarketPrediction, emXY, totalScoreOf, buildPerModel, statOf,
      evalFetchResult, fetchJson, netEvalsEmpty, evalsOf, aggregatesOf, avgOf, upsert,
      alookup, jsOrStr])

/-- C7, witness: on the X/Y example the theorem instantiates — the winner slot
is the first maximal belief in entry-map index order. -/
theorem C7_witness :
    ∃ l₁ m v l₂,
      (computeMarketPrediction netEvalsXY "m" emXY).1.beliefs = l₁ ++ (m, v) :: l₂ ∧
      (computeMarketPrediction netEvalsXY "m" emXY).1.predictedWinner = some m ∧
      (computeMarketPrediction netEvalsXY "m" emXY).1.topBelief = v ∧
      (∀ p ∈ l₁, p.2 < v) ∧
      (∀ p ∈ (computeMarketPrediction netEvalsXY "m" emXY).1.beliefs, p.2 ≤ v) ∧
      ((computeMarketPrediction netEvalsXY "m" emXY).1.beliefs).map Prod.fst =
        emXY.map Prod.snd :=
  C7_winner_first_max netEvalsXY "m" emXY (by decide) (by decide) (by decide)
    (by simp [computeMarketPrediction, emXY, totalScoreOf, buildPerModel, statOf,
        evalFetchResult, fetchJson, netEvalsXY, evalsOf, aggregatesOf, avgOf, upsert,
        alookup, jsOrStr]
        norm_num)

/-- `Set.add` keeps existing members. -/
theorem mem_addGhost_of_mem {g : List String} {id x : String} (h : x ∈ g) :
    x ∈ addGhost g id := by
  unfold addGhost
  split <;> simp [h]

/-- Insertion keeps exactly the members. -/
theorem mem_insertByTsDesc {x y : MarketItem} :
    ∀ {l : List MarketItem}, y ∈ insertByTsDesc x l ↔ y = x ∨ y ∈ l
  | [] => by simp [insertByTsDesc]
  | z :: l => by
    unfold insertByTsDesc
    split
    · simp
    · rw [List.mem_cons, mem_insertByTsDesc]
      simp [or_left_comm]

/-- Sorting keeps exactly the members. -/
theorem mem_sortByTsDesc {y : MarketItem} :
    ∀ {l : List MarketItem}, y ∈ sortByTsDesc l ↔ y ∈ l
  | [] => Iff.rfl
  | x :: l => by
    unfold sortByTsDesc
    rw [mem_insertByTsDesc, List.mem_cons, mem_sortByTsDesc]

/-- The candidate loop only grows the ghost set. -/
theorem detectLoop_ghosts_mono (net : Net) :
    ∀ (cands : List MarketItem) (g : List String) (x : String),
      x ∈ g → x ∈ (detectLoop net cands g).2.1
  | [], _, _, h => h
  | c :: rest, g, x, h => by
    unfold detectLoop
    split
    · split
      · exact h
      · exact h
    · exact detectLoop_ghosts_mono net rest (addGhost g c.market_id) x (mem_addGhost_of_mem h)

/-- Every request the candidate loop issues is an eval probe of one of the
candidates' market ids. -/
theorem detectLoop_log_from_cands (net : Net) :
    ∀ (cands : List MarketItem) (g : List String) (req : Req),
      req ∈ (detectLoop net cands g).2.2 →
      ∃ c ∈ cands, ∃ k, req = Req.evals c.market_id k
  | [], _, req, h => absurd h (by simp [detectLoop])
  | c :: rest, g, req, h => by
    unfold detectLoop at h
    split at h
    · split at h
      · simp at h
        exact ⟨c, by simp, "0", h⟩
      · rcases List.mem_cons.mp h with h | h
        · exact ⟨c, by simp, "0", h⟩
        · have h' : ∃ i, i < 10 ∧ Req.evals c.market_id (toString i) = req := by
            simpa [discoverEntryMap] using h
          obtain ⟨i, _, hreq⟩ := h'
          exact ⟨c, by simp, toString i, hreq.symm⟩
    · rcases List.mem_cons.mp h with h | h
      · exact ⟨c, by simp, "0", h⟩
      · obtain ⟨c', hc', k, hk⟩ := detectLoop_log_from_cands net rest (addGhost g c.market_id) req h
        exact ⟨c', by simp [hc'], k, hk⟩

/-- The detection body preserves the ghost set's members and never issues an
eval probe for an id that was already a ghost on entry. -/
theorem detectFresh_spec (st : ServerState) (net : Net) (now : Int) :
    (∀ id ∈ st.ghosts, id ∈ (detectFresh st net now).2.1.ghosts) ∧
    (∀ id ∈ st.ghosts, ∀ k, Req.evals id k ∉ (detectFresh st net now).2.2) := by
  unfold detectFresh
  rcases h : fetchJson net (Req.markets 10 "ongoing") with e | r
  · refine ⟨fun id hid => hid, fun id _ k hmem => ?_⟩
    simp at hmem
  · dsimp only
    set L := sortByTsDesc (((r.json.bind (·.items)).getD []).filter
        (fun m => !(decide (m.market_id ∈ st.ghosts)))) with hL
    have hkey : ∀ c ∈ L, c.market_id ∉ st.ghosts := by
      intro c hcmem
      rw [hL] at hcmem
      have hf := List.mem_filter.mp (mem_sortByTsDesc.mp hcmem)
      simpa using hf.2
    rcases hl : detectLoop net L st.ghosts with ⟨res, g, log⟩
    have hmono : ∀ x ∈ st.ghosts, x ∈ g := by
      intro x hx
      have := detectLoop_ghosts_mono net L st.ghosts x hx
      rw [hl] at this
      exact this
    have hlog : ∀ id ∈ st.ghosts, ∀ k, Req.evals id k ∉ log := by
      intro id hid k hmem
      have hin : Req.evals id k ∈ (detectLoop net L st.ghosts).2.2 := by
        rw [hl]; exact hmem
      obtain ⟨c, hc, k', hk⟩ := detectLoop_log_from_cands net L st.ghosts _ hin
      have : id = c.market_id := by injection hk
      exact hkey c hc (this ▸ hid)
    cases res with
    | some lm =>
      refine ⟨fun id hid => hmono id hid, fun id hid k hmem => ?_⟩
      rcases List.mem_cons.mp hmem with hx | hx
      · cases hx
      · exact hlog id hid k hx
    | none =>
      refine ⟨fun id hid => hmono id hid, fun id hid k hmem => ?_⟩
      rcases List.mem_cons.mp hmem with hx | hx
      · cases hx
      · exact hlog id hid k hx

/-- C5: over one `detectLiveMarket` step, ids already in the ghost set remain
in it (the set only grows — no code path removes an id), and no eval-data
probe is issued for any id that was in the set on entry (ghosts are filtered
from the candidate list before the probe loop). -/
theorem C5_ghosts_monotone_no_reprobe (st : ServerState) (net : Net) (now : Int) :
    (∀ id ∈ st.ghosts, id ∈ (detectLiveMarket st net now).2.1.ghosts) ∧
    (∀ id ∈ st.ghosts, ∀ k, Req.evals id k ∉ (detectLiveMarket st net now).2.2) := by
  unfold detectLiveMarket
  rcases h : st.liveMarketCache with _ | lm
  · exact detectFresh_spec st net now
  · by_cases httl : now - st.liveMarketCacheTime < LIVE_MARKET_CACHE_MS
    · simp only [if_pos httl]
      exact ⟨fun id hid => hid, fun id _ k hmem => by simp at hmem⟩
    · simp only [if_neg httl]
      exact detectFresh_spec st net now

/-- C5, witness: from the startup state (ghost "2") against a network whose
only ongoing candidate is a fresh ghost "7": "2" stays in the ghost set and no
eval probe for "2" is issued during the cycle. -/
theorem C5_witness :
    "2" ∈ (detectLiveMarket initialState netGhost7 100).2.1.ghosts ∧
    Req.evals "2" "0" ∉ (detectLiveMarket initialState netGhost7 100).2.2 :=
  ⟨(C5_ghosts_monotone_no_reprobe initialState netGhost7 100).1 "2" (by decide),
   (C5_ghosts_monotone_no_reprobe initialState netGhost7 100).2 "2" (by decide) "0"⟩

/-- If every candidate's probe reports no data, the loop accepts nobody. -/
theorem detectLoop_none (net : Net) :
    ∀ (cands : List MarketItem) (g : List String),
      (∀ c ∈ cands, marketHasRealData net c.market_id = false) →
      (detectLoop net cands g).1 = none
  | [], _, _ => rfl
  | c :: rest, g, h => by
    have hc : marketHasRealData net c.market_id = false := h c (by simp)
    unfold detectLoop
    rw [hc]
    dsimp only [Bool.false_eq_true, if_false]
    exact detectLoop_none net rest (addGhost g c.market_id)
      (fun c' h' => h c' (by simp [h']))

/-- On a completed exchange, `fetchJson`'s json is the transport's parse. -/
theorem fetchJson_ok_json {α : Type} {net : α → TransportResult} {u : α}
    {r : FetchJsonRes} (h : fetchJson net u = .ok r)
    (ok : Bool) (s : Int) (t : String) (j : Option UpJson)
    (hn : net u = .treply ok s t j) : r.json = j := by
  unfold fetchJson at h
  rw [hn] at h
  cases j with
  | none => injection h with h'; rw [← h']
  | some jj => injection h with h'; rw [← h']

/-- C8: when the live-market cache is not valid and either the ongoing-markets
query fails in transport (the catch absorbs it — detection never throws) or
every listed candidate is a known ghost or probes empty, `detectLiveMarket`
returns the settled fallback: MARKET_CONFIG["4"] (the highest display order),
status "closed", isKnown true, and caches it. -/
theorem C8_outage_fallback (st : ServerState) (net : Net) (now : Int)
    (hc : ¬(st.liveMarketCache.isSome = true ∧
        now - st.liveMarketCacheTime < LIVE_MARKET_CACHE_MS))
    (hfail : (∃ e, net (Req.markets 10 "ongoing") = .tthrow e) ∨
        ∀ m ∈ itemsOf net, m.market_id ∈ st.ghosts ∨
          marketHasRealData net m.market_id = false) :
    (detectLiveMarket st net now).1 = FALLBACK_LIVE ∧
    (detectLiveMarket st net now).2.1.liveMarketCache = some FALLBACK_LIVE ∧
    FALLBACK_LIVE.market_id = "4" ∧ FALLBACK_LIVE.market_name = MC4.name ∧
    FALLBACK_LIVE.status = "closed" ∧ FALLBACK_LIVE.entryMap = MC4.entryMap ∧
    FALLBACK_LIVE.isKnown = true := by
  have hfresh : (detectFresh st net now).1 = FALLBACK_LIVE ∧
      (detectFresh st net now).2.1.liveMarketCache = some FALLBACK_LIVE := by
    unfold detectFresh
    rcases h : fetchJson net (Req.markets 10 "ongoing") with e | r
    · exact ⟨rfl, rfl⟩
    · dsimp only
      rcases hfail with ⟨e, he⟩ | hall
      · unfold fetchJson at h
        rw [he] at h
        cases h
      · have hitems : (r.json.bind (·.items)).getD [] = itemsOf net := by
          unfold itemsOf
          cases hn : net (Req.markets 10 "ongoing") with
          | tthrow e' =>
            unfold fetchJson at h
            rw [hn] at h
            cases h
          | treply ok' s' t' j' =>
            dsimp only
            rw [fetchJson_ok_json h ok' s' t' j' hn]
        have hnone : (detectLoop net (sortByTsDesc
            (((r.json.bind (·.items)).getD []).filter
              (fun m => !(decide (m.market_id ∈ st.ghosts))))) st.ghosts).1 = none := by
          refine detectLoop_none net _ st.ghosts ?_
          intro c hcmem
          have hf := List.mem_filter.mp (mem_sortByTsDesc.mp hcmem)
          have hng : c.market_id ∉ st.ghosts := by simpa using hf.2
          have hmem : c ∈ itemsOf net := hitems ▸ hf.1
          rcases hall c hmem with hg | hnd
          · exact absurd hg hng
          · exact hnd
        rcases hl : detectLoop net (sortByTsDesc
            (((r.json.bind (·.items)).getD []).filter
              (fun m => !(decide (m.market_id ∈ st.ghosts))))) st.ghosts with ⟨res, g, log⟩
        rw [hl] at hnone
        dsimp only at hnone
        rw [hnone]
        exact ⟨rfl, rfl⟩
  unfold detectLiveMarket
  rcases hlc : st.liveMarketCache with _ | lm
  · exact ⟨hfresh.1, hfresh.2, rfl, rfl, rfl, rfl, rfl⟩
  · have httl : ¬(now - st.liveMarketCacheTime < LIVE_MARKET_CACHE_MS) :=
      fun hlt => hc ⟨by simp [hlc], hlt⟩
    simp only [if_neg httl]
    exact ⟨hfresh.1, hfresh.2, rfl, rfl, rfl, rfl, rfl⟩

/-- C8, witness: total upstream outage from the startup state — the detector
returns and caches the settled fallback without throwing. -/
theorem C8_witness :
    (detectLiveMarket initialState netOutage 100).1 = FALLBACK_LIVE ∧
    (detectLiveMarket initialState netOutage 100).2.1.liveMarketCache = some FALLBACK_LIVE :=
  ⟨(C8_outage_fallback initialState netOutage 100 (by decide)
      (Or.inl ⟨"fetch failed: ECONNREFUSED", rfl⟩)).1,
   (C8_outage_fallback initialState netOutage 100 (by decide)
      (Or.inl ⟨"fetch failed: ECONNREFUSED", rfl⟩)).2.1⟩

/-- `detectLiveMarket` never touches the chart or human-belief cache slots. -/
theorem detect_preserves_caches (st : ServerState) (net : Net) (now : Int) :
    (detectLiveMarket st net now).2.1.delphiChartCache = st.delphiChartCache ∧
    (detectLiveMarket st net now).2.1.delphiChartCacheTime = st.delphiChartCacheTime ∧
    (detectLiveMarket st net now).2.1.humanBeliefCache = st.humanBeliefCache ∧
    (detectLiveMarket st net now).2.1.humanBeliefCacheTime = st.humanBeliefCacheTime := by
  unfold detectLiveMarket detectFresh
  rcases st.liveMarketCache with _ | lm
  · dsimp only
    rcases fetchJson net (Req.markets 10 "ongoing") with e | r
    · exact ⟨rfl, rfl, rfl, rfl⟩
    · dsimp only
      rcases detectLoop net (sortByTsDesc (((r.json.bind (·.items)).getD []).filter
          (fun m => !(decide (m.market_id ∈ st.ghosts))))) st.ghosts with ⟨res, g, log⟩
      cases res <;> exact ⟨rfl, rfl, rfl, rfl⟩
  · dsimp only
    by_cases httl : now - st.liveMarketCacheTime < LIVE_MARKET_CACHE_MS
    · rw [if_pos httl]
      exact ⟨rfl, rfl, rfl, rfl⟩
    · rw [if_neg httl]
      rcases fetchJson net (Req.markets 10 "ongoing") with e | r
      · exact ⟨rfl, rfl, rfl, rfl⟩
      · dsimp only
        rcases detectLoop net (sortByTsDesc (((r.json.bind (·.items)).getD []).filter
            (fun m => !(decide (m.market_id ∈ st.ghosts))))) st.ghosts with ⟨res, g, log⟩
        cases res <;> exact ⟨rfl, rfl, rfl, rfl⟩

/-- After an invalidated (empty) cache slot, the chart fetch tail either
returns an error with the slot still empty, or returns and caches a fresh
payload bound to the requested market id. -/
theorem chartFetch_spec (st : ServerState) (net : Net) (now : Int)
    (marketId timeframe : String) (em : EntryMap) (log : List Req)
    (hst : st.delphiChartCache = none) :
    (∃ code msg, (chartFetch st net now marketId timeframe em log).1 = HttpOut.err code msg ∧
        (chartFetch st net now marketId timeframe em log).2.1.delphiChartCache = none) ∨
    (∃ fresh, (chartFetch st net now marketId timeframe em log).1 = HttpOut.ok fresh ∧
        fresh.market_id = marketId ∧
        (chartFetch st net now marketId timeframe em log).2.1.delphiChartCache = some fresh) := by
  unfold chartFetch
  dsimp only
  rcases fetchJson net (Req.chart marketId timeframe) with e | r
  · exact Or.inl ⟨500, e, rfl, hst⟩
  · dsimp only
    rcases r.json with _ | chart
    · exact Or.inl ⟨502, _, rfl, hst⟩
    · dsimp only
      rcases selectMarketChart chart with _ | mc
      · exact Or.inl ⟨502, _, rfl, hst⟩
      · exact Or.inr ⟨_, rfl, rfl, rfl⟩

/-- C9: for both market-bound caches, when the cached entry's market id
differs from the id the request resolves to, the handler never serves the old
payload (the slot is cleared first, independent of TTL) and any success is a
freshly computed payload bound to the new market id. -/
theorem C9_invalidate_on_market_change :
    (∀ (st : ServerState) (net : Net) (now : Int) (tfQ midQ : Option String) (c : ChartResp),
      st.delphiChartCache = some c →
      c.market_id ≠ chartMarketIdOf st net now midQ →
      (chartHandler st net now tfQ midQ).1 ≠ HttpOut.ok c ∧
      ((∃ code msg, (chartHandler st net now tfQ midQ).1 = HttpOut.err code msg ∧
          (chartHandler st net now tfQ midQ).2.1.delphiChartCache = none) ∨
       (∃ fresh, (chartHandler st net now tfQ midQ).1 = HttpOut.ok fresh ∧
          fresh.market_id = chartMarketIdOf st net now midQ ∧
          (chartHandler st net now tfQ midQ).2.1.delphiChartCache = some fresh))) ∧
    (∀ (st : ServerState) (net : Net) (now : Int) (c : HBResp),
      st.humanBeliefCache = some c →
      c.market_id ≠ (detectLiveMarket st net now).1.market_id →
      (humanBeliefHandler st net now).1 ≠ HttpOut.ok c ∧
      (∃ fresh, (humanBeliefHandler st net now).1 = HttpOut.ok fresh ∧
        fresh.market_id = (detectLiveMarket st net now).1.market_id ∧
        (humanBeliefHandler st net now).2.1.humanBeliefCache = some fresh)) := by
  constructor
  · intro st net now tfQ midQ c hcache hne
    simp only [chartMarketIdOf] at hne
    have hpres := (detect_preserves_caches st net now).1
    unfold chartHandler
    dsimp only
    rw [hpres, hcache]
    dsimp only
    rw [if_pos hne]
    dsimp only
    have hspec := chartFetch_spec
      { (detectLiveMarket st net now).2.1 with delphiChartCache := none, delphiChartCacheTime := 0 }
      net now
      (if jsTruthyStr midQ then midQ.getD "" else (detectLiveMarket st net now).1.market_id)
      (jsOrStr tfQ "auto")
      (match MARKET_CONFIG (if jsTruthyStr midQ then midQ.getD ""
         else (detectLiveMarket st net now).1.market_id) with
       | some cfg => cfg.entryMap
       | none =>
         if (if jsTruthyStr midQ then midQ.getD ""
              else (detectLiveMarket st net now).1.market_id) =
             (detectLiveMarket st net now).1.market_id then
           (detectLiveMarket st net now).1.entryMap
         else [])
      (detectLiveMarket st net now).2.2 rfl
    rcases hspec with ⟨code, msg, hout, hslot⟩ | ⟨fresh, hout, hmid, hslot⟩
    · refine ⟨?_, Or.inl ⟨code, msg, hout, hslot⟩⟩
      rw [hout]
      intro hbad
      cases hbad
    · refine ⟨?_, Or.inr ⟨fresh, hout, hmid, hslot⟩⟩
      rw [hout]
      intro hbad
      injection hbad with hfc
      exact hne (by rw [← hfc, hmid])
  · intro st net now c hcache hne
    have hpres := (detect_preserves_caches st net now).2.2.1
    unfold humanBeliefHandler
    dsimp only
    rw [hpres, hcache]
    dsimp only
    rw [if_pos hne]
    dsimp only
    refine ⟨?_, ⟨_, rfl, rfl, rfl⟩⟩
    intro hbad
    injection hbad with hfc
    exact hne (by rw [← hfc])

/-- C9, witness: from a state whose chart and human-belief caches are fresh
(age 500ms, within both TTLs) but bound to market "9" while the active market
is "4", neither handler returns the stale payload. -/
theorem C9_witness :
    (chartHandler stStale netChart4 1500 (some "auto") none).1 ≠ HttpOut.ok oldChartPayload ∧
    (humanBeliefHandler stStale netChart4 1500).1 ≠ HttpOut.ok oldHBPayload :=
  ⟨(C9_invalidate_on_market_change.1 stStale netChart4 1500 (some "auto") none
      oldChartPayload rfl (by decide)).1,
   (C9_invalidate_on_market_change.2 stStale netChart4 1500 oldHBPayload rfl (by decide)).1⟩

/-- C10: the chart cache is keyed only by market id and age, not by
timeframe.  Concretely: a first request with `timeframe=auto` caches a
payload; a second request for the same market 1s later (within the 5s TTL)
with `timeframe=24h` returns the first request's payload verbatim — its
`timeframe` field still says "auto" and the second request issues no
upstream fetch at all. -/
theorem C10_chart_cache_ignores_timeframe :
    (chartHandler initialState netChart4 1000 (some "auto") none).1 =
        HttpOut.ok chartPayload4 ∧
    chartPayload4.timeframe = "auto" ∧
    ("24h" : String) ≠ "auto" ∧
    (chartHandler ((chartHandler initialState netChart4 1000 (some "auto") none).2.1)
        netChart4 2000 (some "24h") none).1 = HttpOut.ok chartPayload4 ∧
    (chartHandler ((chartHandler initialState netChart4 1000 (some "auto") none).2.1)
        netChart4 2000 (some "24h") none).2.2 = [] := by
  refine ⟨by decide, rfl, by decide, by decide, by decide⟩
